import Mathlib

/-!
Verification development for the size-suffix / weekly-schedule core of this
repository.

The repository contains two generations of the SizeSuffix implementation:
the file fs/sizesuffix.go (suffixes Ki, Mi, ... and acceptance of the forms
Ki and KiB on input) and the older copy in unnamed/part_000 (suffixes K, M,
... and single-letter input only).  Both are embedded below; definitions
prefixed with ss embed fs/sizesuffix.go and definitions prefixed with v0
embed unnamed/part_000.

Modelling conventions.
Strings are embedded as List Char (Go indexes bytes from the end of the
string; the embedding pattern-matches on the reversed character list, which
expresses the same access).

The numeric pipeline of Set is embedded faithfully to float64 semantics:
strconv.ParseFloat is embedded as the decimal-literal grammar (optional
sign, digits, optional dot and fraction, optional decimal exponent)
followed by correct rounding to the nearest IEEE-754 double, ties to even,
with subnormals, and with an error exactly when the value rounds to
infinity (the ErrRange case of ParseFloat; underflow returns zero with no
error, as in strconv floatBits, which flags only the overflow path).  A
double is represented exactly as a dyadic rational, a signed integer
numerator over a power-of-two denominator.  The subsequent multiplication
by the suffix multiplier is exact in float64 whenever the product is below
2 to the 1024 because every multiplier is a power of two; products at or
beyond int64 range, including those that round to infinity, are mapped by
the int64 conversion to the amd64 result, minus 2 to the 63 (the Go
specification makes the out-of-range conversion implementation-dependent;
the amd64 behaviour is the one the repository tests observe).  Three
ParseFloat input forms remain outside the modelled grammar and are
rejected here although Go accepts them: hexadecimal mantissas, the words
inf, infinity and nan, and digit-separator underscores.  Every input the
model accepts is accepted by Go with the same value, and every input Go
rejects is rejected by the model, so success-conditioned theorems and
error-side theorems below transfer to the source.  The formatting path
only divides an int64 by a power of two, which float64 performs exactly
for inputs below 2 to the 53rd, the only zone any formatting theorem
quantifies over.  Error values are modelled by Bool flags or Option; Go
error messages themselves are not modelled.
-/

set_option maxRecDepth 20000

/-- Numeric value of a list of decimal digit characters, most significant
first (the mantissa accumulation performed by strconv.ParseFloat). -/
def digitsVal (cs : List Char) : Nat :=
  cs.foldl (fun acc c => 10 * acc + (c.toNat - 48)) 0

/-- Embeds the decimal grammar of strconv.ParseFloat: optional sign,
integer digits, optional dot and fraction digits, optional decimal
exponent with optional sign.  Returns the signed decimal mantissa sd and
the scale g; the exact decimal value of the literal is sd divided by ten
to the g (g is the fraction length minus the exponent and may be
negative).  Hexadecimal mantissas, the words inf, infinity and nan, and
digit-separator underscores are the remaining accepted Go forms outside
this grammar; they are rejected here (see the module docstring). -/
def parseDec (cs : List Char) : Option (Int × Int) :=
  let sp : Bool × List Char :=
    match cs with
    | '-' :: t => (true, t)
    | '+' :: t => (false, t)
    | _ => (false, cs)
  let neg := sp.1
  let cs1 := sp.2
  let ip := cs1.takeWhile Char.isDigit
  let rest1 := cs1.dropWhile Char.isDigit
  let fr : List Char × List Char :=
    match rest1 with
    | '.' :: t => (t.takeWhile Char.isDigit, t.dropWhile Char.isDigit)
    | _ => ([], rest1)
  let fp := fr.1
  let rest2 := fr.2
  if ip.isEmpty && fp.isEmpty then none
  else
    let mant : Nat := digitsVal ip * 10 ^ fp.length + digitsVal fp
    let sd : Int := if neg then -(mant : Int) else (mant : Int)
    match rest2 with
    | [] => some (sd, (fp.length : Int))
    | e :: t =>
      if e = 'e' ∨ e = 'E' then
        let esp : Bool × List Char :=
          match t with
          | '-' :: t2 => (true, t2)
          | '+' :: t2 => (false, t2)
          | _ => (false, t)
        let ed := esp.2.takeWhile Char.isDigit
        let rest3 := esp.2.dropWhile Char.isDigit
        if ed.isEmpty || !rest3.isEmpty then none
        else
          let ex : Int := if esp.1 then -(digitsVal ed : Int) else (digitsVal ed : Int)
          some (sd, (fp.length : Int) - ex)
      else none

/-- Floor of the base-two logarithm of a positive natural number, by
structural fuel recursion (the fuel argument only bounds the recursion
depth; n itself is always a sufficient bound). -/
def flog2F : Nat → Nat → Nat
  | 0, _ => 0
  | fuel + 1, n => if n < 2 then 0 else flog2F fuel (n / 2) + 1

/-- Floor of the base-two logarithm of n, for n at least one. -/
def flog2N (n : Nat) : Nat := flog2F n n

/-- Smallest t with b at most a times two to the t, by structural fuel
recursion; used for the exponent of rationals below one. -/
def sclogF : Nat → Nat → Nat → Nat
  | 0, _, _ => 0
  | fuel + 1, x, b => if b ≤ x then 0 else sclogF fuel (x * 2) b + 1

/-- Smallest t with b at most a times two to the t (a at least one). -/
def sclogN (a b : Nat) : Nat := sclogF b a b

/-- Nearest integer to a divided by b, ties to even (IEEE-754 unbiased
rounding on the final binary digit, also the rounding of fmt fixed-point
formatting); b positive. -/
def roundHalfEven (a b : Nat) : Nat :=
  let q := a / b
  let r := a % b
  if 2 * r < b then q
  else if 2 * r > b then q + 1
  else if q % 2 = 0 then q else q + 1

/-- Embeds the correctly rounded decimal-to-float64 conversion performed
by strconv.ParseFloat on the value sd divided by ten to the g: the result
is the nearest IEEE-754 double (53-bit mantissa, exponent range down to
the subnormals at two to the minus 1074), ties to even, returned exactly
as a dyadic rational, a signed numerator num over two to the tw.  Returns
none exactly when the rounded magnitude reaches two to the 1024, the case
in which ParseFloat produces an infinity together with ErrRange; a
magnitude that underflows rounds to zero with no error (strconv floatBits
flags only the overflow path).  The two early branches are magnitude
clamps that avoid computing astronomic powers of ten: a nonzero literal
with value at least ten to the 400 always overflows, and one below ten to
the minus 1200 always rounds to zero. -/
def floatRound64 (sd : Int) (g : Int) : Option (Int × Nat) :=
  if sd = 0 then some (0, 0)
  else
    let D : Nat := (Nat.repr sd.natAbs).length
    if (400 : Int) ≤ -g then none
    else if (1200 : Int) + D ≤ g then some (0, 0)
    else
      let a : Nat := if 0 ≤ g then sd.natAbs else sd.natAbs * 10 ^ (-g).toNat
      let b : Nat := if 0 ≤ g then 10 ^ g.toNat else 1
      let e : Int := if b ≤ a then (flog2N (a / b) : Int) else -(sclogN a b : Int)
      let eg : Int := max (e - 52) (-1074)
      if 0 ≤ eg then
        let n : Nat := roundHalfEven a (b * 2 ^ eg.toNat)
        if 2 ^ 1024 ≤ n * 2 ^ eg.toNat then none
        else some (if sd < 0 then -((n * 2 ^ eg.toNat : Nat) : Int)
                   else ((n * 2 ^ eg.toNat : Nat) : Int), 0)
      else
        let n : Nat := roundHalfEven (a * 2 ^ (-eg).toNat) b
        some (if sd < 0 then -(n : Int) else (n : Int), (-eg).toNat)

/-- Embeds strconv.ParseFloat on the modelled grammar: parse the decimal
literal, then round its exact value to the nearest float64.  none covers
both the syntax-error and the ErrRange returns, after either of which
Set returns the error. -/
def parseFloatGo (cs : List Char) : Option (Int × Nat) :=
  match parseDec cs with
  | none => none
  | some (sd, g) => floatRound64 sd g

/-- Embeds the Go conversion int64(value) applied to the non-negative
float64 value p over two to the tw: truncation toward zero while the value
is below two to the 63; for larger values, including the products that
overflow float64 to infinity, the conversion is implementation-dependent
per the Go specification and yields minus two to the 63 on amd64, the
architecture of the repository test environment. -/
def goInt64 (p : Int) (tw : Nat) : Int :=
  if p < 2 ^ 63 * 2 ^ tw then ((p.toNat / 2 ^ tw : Nat) : Int) else -(2 ^ 63)

/-- Embeds SizeSuffix.symbolMultiplier of fs/sizesuffix.go (lines 117 to
134): the Go pair (found, multiplier) is modelled as an Option; the
multipliers are the exact powers of 1024 (their float64 images are exact).
The switch of the older Set in unnamed/part_000 (lines 105 to 116) inlines
the identical letter-to-multiplier case list. -/
def symbolMultiplier (c : Char) : Option Nat :=
  if c = 'k' ∨ c = 'K' then some 1024
  else if c = 'm' ∨ c = 'M' then some (1024 ^ 2)
  else if c = 'g' ∨ c = 'G' then some (1024 ^ 3)
  else if c = 't' ∨ c = 'T' then some (1024 ^ 4)
  else if c = 'p' ∨ c = 'P' then some (1024 ^ 5)
  else if c = 'e' ∨ c = 'E' then some (1024 ^ 6)
  else none

/-- Embeds the suffix switch of SizeSuffix.Set in fs/sizesuffix.go (lines
145 to 183): examines the final characters of the input, returns the input
with the suffix stripped together with the selected multiplier, or none for
a bad suffix.  The Go code indexes s from the end; the match on the
reversed list expresses the same accesses (c is the last character, the
following pattern components are the characters before it). -/
def ssSplitSuffix (cs : List Char) : Option (List Char × Nat) :=
  match cs.reverse with
  | [] => none
  | c :: rest =>
    if c.isDigit ∨ c = '.' then some (cs, 1024)
    else if c = 'b' ∨ c = 'B' then
      match rest with
      | ci :: c3 :: rest3 =>
        if ci = 'i' then
          match symbolMultiplier c3 with
          | some m => some (rest3.reverse, m)
          | none => none
        else some ((ci :: c3 :: rest3).reverse, 1)
      | _ => some (rest.reverse, 1)
    else if c = 'i' ∨ c = 'I' then
      match rest with
      | c2 :: rest2 =>
        match symbolMultiplier c2 with
        | some m => some (rest2.reverse, m)
        | none => none
      | [] => none
    else
      match symbolMultiplier c with
      | some m => some (rest.reverse, m)
      | none => none

/-- Embeds SizeSuffix.Set of fs/sizesuffix.go (lines 137 to 194) as a state
transformer: given the previous receiver value and the input, returns the
new receiver value and whether an error was returned.  The Go method writes
the receiver only in the off branch and in the final assignment, after all
checks; every error return leaves the receiver at the previous value.
After the suffix is stripped the numeric part goes through ParseFloat
(parseFloatGo, including its ErrRange error), the negativity check is on
the rounded float, the multiplication by the power-of-two multiplier is
exact below two to the 1024 and collapses with the int64 conversion into
goInt64 (a float64 product at or beyond two to the 63, or at infinity,
converts to minus two to the 63 on amd64 either way). -/
def ssSetGo (old : Int) (cs : List Char) : Int × Bool :=
  if cs = [] then (old, true)
  else if cs.map Char.toLower = ['o', 'f', 'f'] then (-1, false)
  else
    match ssSplitSuffix cs with
    | none => (old, true)
    | some (numPart, m) =>
      match parseFloatGo numPart with
      | none => (old, true)
      | some (num, tw) =>
        if num < 0 then (old, true)
        else (goInt64 (num * m) tw, false)

/-- Pure view of ssSetGo: the parsed value on success, none on error. -/
def ssSet (cs : List Char) : Option Int :=
  match ssSetGo 0 cs with
  | (v, false) => some v
  | (_, true) => none

/-- Decimal digits of a non-negative integer (fmt.Sprintf %.0f on an
integral non-negative value prints exactly these digits). -/
def intChars (n : Int) : List Char :=
  if n < 0 then '-' :: (Nat.repr n.natAbs).data else (Nat.repr n.toNat).data

/-- Three zero-padded decimal digits, n below 1000. -/
def pad3 (n : Nat) : List Char :=
  let ds := (Nat.repr n).data
  List.replicate (3 - ds.length) '0' ++ ds

/-- Embeds fmt.Sprintf with format %.3f applied to the exact quotient
x / d (d positive): three decimals, rounded to nearest. -/
def fmt3 (x d : Nat) : List Char :=
  let n := roundHalfEven (1000 * x) d
  (Nat.repr (n / 1000)).data ++ '.' :: pad3 (n % 1000)

/-- Embeds the final formatting step of SizeSuffix.string (lines 60 to 63
of fs/sizesuffix.go and of unnamed/part_000): the scaled value is x / d
exactly; if it is integral print it with no decimals, otherwise with three
decimals. -/
def fmtGo (x d : Nat) : List Char :=
  if x % d = 0 then (Nat.repr (x / d)).data else fmt3 x d

/-- Embeds SizeSuffix.string of fs/sizesuffix.go (lines 30 to 64): the value
part and the suffix part of the formatted number, unit thresholds at the
powers of 1024, suffixes Ki Mi Gi Ti Pi Ei. -/
def ssStringPair (x : Int) : List Char × List Char :=
  if x < 0 then (['o', 'f', 'f'], [])
  else if x = 0 then (['0'], [])
  else if x < 1024 then (fmtGo x.toNat 1, [])
  else if x < 1024 ^ 2 then (fmtGo x.toNat 1024, ['K', 'i'])
  else if x < 1024 ^ 3 then (fmtGo x.toNat (1024 ^ 2), ['M', 'i'])
  else if x < 1024 ^ 4 then (fmtGo x.toNat (1024 ^ 3), ['G', 'i'])
  else if x < 1024 ^ 5 then (fmtGo x.toNat (1024 ^ 4), ['T', 'i'])
  else if x < 1024 ^ 6 then (fmtGo x.toNat (1024 ^ 5), ['P', 'i'])
  else (fmtGo x.toNat (1024 ^ 6), ['E', 'i'])

/-- Embeds SizeSuffix.String of fs/sizesuffix.go (lines 67 to 70):
value and suffix concatenated with no space. -/
def ssString (x : Int) : List Char := (ssStringPair x).1 ++ (ssStringPair x).2

/-- Embeds the suffix switch of the older SizeSuffix.Set in
unnamed/part_000 (lines 96 to 119): the same digit and dot default and the
same letter cases, but no i or I handling at all. -/
def v0SplitSuffix (cs : List Char) : Option (List Char × Nat) :=
  match cs.reverse with
  | [] => none
  | c :: rest =>
    if c.isDigit ∨ c = '.' then some (cs, 1024)
    else if c = 'b' ∨ c = 'B' then some (rest.reverse, 1)
    else
      match symbolMultiplier c with
      | some m => some (rest.reverse, m)
      | none => none

/-- Embeds SizeSuffix.Set of unnamed/part_000 (lines 88 to 131) as a state
transformer, exactly parallel to ssSetGo (the same ParseFloat, negativity
check, float multiply and int64 conversion follow the suffix switch). -/
def v0SetGo (old : Int) (cs : List Char) : Int × Bool :=
  if cs = [] then (old, true)
  else if cs.map Char.toLower = ['o', 'f', 'f'] then (-1, false)
  else
    match v0SplitSuffix cs with
    | none => (old, true)
    | some (numPart, m) =>
      match parseFloatGo numPart with
      | none => (old, true)
      | some (num, tw) =>
        if num < 0 then (old, true)
        else (goInt64 (num * m) tw, false)

/-- Pure view of v0SetGo. -/
def v0Set (cs : List Char) : Option Int :=
  match v0SetGo 0 cs with
  | (v, false) => some v
  | (_, true) => none

/-- Embeds SizeSuffix.string of unnamed/part_000 (lines 30 to 64): identical
to the fs version except that the suffixes are the single letters
K M G T P E. -/
def v0StringPair (x : Int) : List Char × List Char :=
  if x < 0 then (['o', 'f', 'f'], [])
  else if x = 0 then (['0'], [])
  else if x < 1024 then (fmtGo x.toNat 1, [])
  else if x < 1024 ^ 2 then (fmtGo x.toNat 1024, ['K'])
  else if x < 1024 ^ 3 then (fmtGo x.toNat (1024 ^ 2), ['M'])
  else if x < 1024 ^ 4 then (fmtGo x.toNat (1024 ^ 3), ['G'])
  else if x < 1024 ^ 5 then (fmtGo x.toNat (1024 ^ 4), ['T'])
  else if x < 1024 ^ 6 then (fmtGo x.toNat (1024 ^ 5), ['P'])
  else (fmtGo x.toNat (1024 ^ 6), ['E'])

/-- Embeds SizeSuffix.String of unnamed/part_000 (lines 67 to 70). -/
def v0String (x : Int) : List Char := (v0StringPair x).1 ++ (v0StringPair x).2

/-- A decoded JSON value, restricted to the kinds UnmarshalJSONFlag
distinguishes: a JSON string, a JSON number that json.Unmarshal accepts
into an int64, and anything else (which json.Unmarshal rejects for both the
string and the int64 attempt). -/
inductive JsonValue where
  | str : List Char → JsonValue
  | num : Int → JsonValue
  | other : JsonValue
deriving DecidableEq

/-- Embeds SizeSuffix.UnmarshalJSON of fs/sizesuffix.go (lines 242 to 247)
through UnmarshalJSONFlag (lines 225 to 239): a JSON string is delegated to
Set, a JSON integer is stored directly via setInt, anything else is an
error. -/
def ssUnmarshalJSON (j : JsonValue) : Option Int :=
  match j with
  | .str cs => ssSet cs
  | .num i => some i
  | .other => none

/-- Embeds the JSON marshalling of SizeSuffix: the repository defines no
MarshalJSON or MarshalText method for SizeSuffix (neither fs/sizesuffix.go
nor unnamed/part_000 declares one), so encoding/json falls back to the
underlying int64 kind and emits a raw JSON number. -/
def ssMarshalJSON (v : Int) : JsonValue := JsonValue.num v

/-- Modelled from the spec: one weekly-schedule entry (section 3 of the
spec); the BwTimeSlot type whose implementation file is absent from src
(only its tests appear, in the material concatenated after
fs/mimetype_test.go).  Bandwidth is the BwPair, flattened to tx and rx. -/
structure BwTimeSlot where
  dayOfTheWeek : Nat
  hhmm : Nat
  tx : Int
  rx : Int
deriving DecidableEq

/-- Split a character list on a separator character; n separators give
n plus one groups, empty groups preserved. -/
def splitOnChar (sep : Char) (cs : List Char) : List (List Char) :=
  cs.foldr
    (fun c acc =>
      if c = sep then [] :: acc
      else
        match acc with
        | g :: gs => (c :: g) :: gs
        | [] => [[c]])
    [[]]

/-- Digits-only natural number, as the spec requires for the HH and MM
fields (parsed as plain integers with no suffix). -/
def parsePlainNat (cs : List Char) : Option Nat :=
  if !cs.isEmpty && cs.all Char.isDigit then some (digitsVal cs) else none

/-- Modelled from the spec: the case-insensitive three-letter weekday
abbreviation of section 4.2, Sunday is 0, for the absent BwTimetable.Set. -/
def parseDay (cs : List Char) : Option Nat :=
  let l := cs.map Char.toLower
  if l = ['s', 'u', 'n'] then some 0
  else if l = ['m', 'o', 'n'] then some 1
  else if l = ['t', 'u', 'e'] then some 2
  else if l = ['w', 'e', 'd'] then some 3
  else if l = ['t', 'h', 'u'] then some 4
  else if l = ['f', 'r', 'i'] then some 5
  else if l = ['s', 'a', 't'] then some 6
  else none

/-- Modelled from the spec: the HH colon MM field of section 4.2; hour
below 24, minute below 60, encoded as HH times 100 plus MM, for the absent
BwTimetable.Set. -/
def parseHHMM (cs : List Char) : Option Nat :=
  match splitOnChar ':' cs with
  | [hh, mm] =>
    match parsePlainNat hh, parsePlainNat mm with
    | some h, some m => if h < 24 ∧ m < 60 then some (h * 100 + m) else none
    | _, _ => none
  | _ => none

/-- Modelled from the spec: the RATE and optional colon RATE2 field of
section 4.2 for the absent BwTimetable.Set; each rate is a SizeValue
literal parsed by the embedded SizeSuffix.Set (so off gives minus one), and
an omitted RATE2 copies RATE. -/
def parseRatePair (cs : List Char) : Option (Int × Int) :=
  match splitOnChar ':' cs with
  | [r] => (ssSet r).map (fun v => (v, v))
  | [r1, r2] =>
    match ssSet r1, ssSet r2 with
    | some v1, some v2 => some (v1, v2)
    | _, _ => none
  | _ => none

/-- Modelled from the spec: one schedule token of section 4.2 for the
absent BwTimetable.Set.  A bare rate gives the single slot Sunday 0000; a
day-unanchored time expands to seven slots in Sunday to Saturday order; a
day-anchored time gives one slot. -/
def parseToken (cs : List Char) : Option (List BwTimeSlot) :=
  match splitOnChar ',' cs with
  | [ratePart] => (parseRatePair ratePart).map (fun p => [⟨0, 0, p.1, p.2⟩])
  | [timePart, ratePart] =>
    match parseRatePair ratePart with
    | none => none
    | some p =>
      match splitOnChar '-' timePart with
      | [hm] =>
        match parseHHMM hm with
        | some t => some ((List.range 7).map (fun d => ⟨d, t, p.1, p.2⟩))
        | none => none
      | [dayPart, hm] =>
        match parseDay dayPart, parseHHMM hm with
        | some d, some t => some [⟨d, t, p.1, p.2⟩]
        | _, _ => none
      | _ => none
  | _ => none

/-- Modelled from the spec: the whole-schedule parse of section 4.2 for the
absent BwTimetable.Set; whitespace-separated tokens, slots accumulated left
to right, any malformed token fails the whole parse, empty input is an
error. -/
def bwParse (cs : List Char) : Option (List BwTimeSlot) :=
  let toks := (splitOnChar ' ' cs).filter (fun t => !t.isEmpty)
  if toks.isEmpty then none
  else (toks.mapM parseToken).map List.flatten

/-- Modelled from the spec: BwTimetable.Set as a state transformer; section
4.2 and section 9 require parse-then-assign, so the previous table is kept
on any error and partial slot lists are never exposed. -/
def bwSetGo (old : List BwTimeSlot) (cs : List Char) : List BwTimeSlot × Bool :=
  match bwParse cs with
  | some l => (l, false)
  | none => (old, true)

/-- Modelled from the spec: the weekly position of a slot, section 4.3 step
3 of the lookup algorithm of the absent BwTimetable.LimitAt. -/
def slotPos (s : BwTimeSlot) : Nat :=
  s.dayOfTheWeek * 1440 + s.hhmm / 100 * 60 + s.hhmm % 100

/-- Modelled from the spec: the weekly position of a query instant, section
4.3 step 2 (day of week, hour, minute; seconds ignored). -/
def weekPos (day hour minute : Nat) : Nat := day * 1440 + hour * 60 + minute

/-- Modelled from the spec: the slot of largest weekly position in a list,
later entries winning ties (section 4.3 steps 4 and 5 tie rule). -/
def pickLargest (l : List BwTimeSlot) : Option BwTimeSlot :=
  l.foldl
    (fun acc s =>
      match acc with
      | none => some s
      | some b => if slotPos b ≤ slotPos s then some s else some b)
    none

/-- Modelled from the spec: BwTimetable.LimitAt of section 4.3, absent from
src.  Empty table gives the synthetic unlimited slot; otherwise the slot of
largest weekly position not exceeding the query position, ties to the later
entry; if no slot qualifies, the slot of largest weekly position overall. -/
def LimitAt (tt : List BwTimeSlot) (day hour minute : Nat) : BwTimeSlot :=
  if tt.isEmpty then ⟨0, 0, -1, -1⟩
  else
    let now := weekPos day hour minute
    match pickLargest (tt.filter (fun s => slotPos s ≤ now)) with
    | some b => b
    | none => (pickLargest tt).getD ⟨0, 0, -1, -1⟩

lemma natDiv_cast_eq_floor (a m d : Nat) :
    ((a * m / d : Nat) : Int) = ⌊(a : ℚ) / d * m⌋ := by
  have h1 : (a : ℚ) / d * m = ((a * m : Nat) : ℚ) / ((d : Nat) : ℚ) := by
    push_cast
    ring
  rw [h1, ← Int.natCast_floor_eq_floor (by positivity), Nat.floor_div_eq_div]

lemma map_ne_off_of_last (l : List Char) (a : Char) (ha : Char.toLower a ≠ 'f') :
    (l ++ [a]).map Char.toLower ≠ ['o', 'f', 'f'] := by
  intro h
  have h2 := congrArg List.getLast? h
  rw [List.map_append] at h2
  simp [List.getLast?_append] at h2
  exact ha h2

lemma sm_facts (c : Char) (m : Nat) (hm : symbolMultiplier c = some m) :
    ¬(c.isDigit ∨ c = '.') ∧ ¬(c = 'b' ∨ c = 'B') ∧ ¬(c = 'i' ∨ c = 'I') ∧
      Char.toLower c ≠ 'f' := by
  unfold symbolMultiplier at hm
  split_ifs at hm with h1 h2 h3 h4 h5 h6
  · rcases h1 with h | h <;> subst h <;> exact ⟨by decide, by decide, by decide, by decide⟩
  · rcases h2 with h | h <;> subst h <;> exact ⟨by decide, by decide, by decide, by decide⟩
  · rcases h3 with h | h <;> subst h <;> exact ⟨by decide, by decide, by decide, by decide⟩
  · rcases h4 with h | h <;> subst h <;> exact ⟨by decide, by decide, by decide, by decide⟩
  · rcases h5 with h | h <;> subst h <;> exact ⟨by decide, by decide, by decide, by decide⟩
  · rcases h6 with h | h <;> subst h <;> exact ⟨by decide, by decide, by decide, by decide⟩

lemma ssSplit_letter (p : List Char) (c : Char) (m : Nat)
    (hm : symbolMultiplier c = some m) :
    ssSplitSuffix (p ++ [c]) = some (p, m) := by
  obtain ⟨h1, h2, h3, _⟩ := sm_facts c m hm
  have hrev : (p ++ [c]).reverse = c :: p.reverse := by simp
  unfold ssSplitSuffix
  rw [hrev]
  simp only [if_neg h1, if_neg h2, if_neg h3, hm, List.reverse_reverse]

lemma ssSplit_i (p : List Char) (c : Char) (m : Nat)
    (hm : symbolMultiplier c = some m) :
    ssSplitSuffix (p ++ [c, 'i']) = some (p, m) := by
  have hrev : (p ++ [c, 'i']).reverse = 'i' :: c :: p.reverse := by simp
  unfold ssSplitSuffix
  rw [hrev]
  simp only [if_neg (by decide : ¬(Char.isDigit 'i' ∨ 'i' = '.')),
    if_neg (by decide : ¬('i' = 'b' ∨ 'i' = 'B')),
    hm, List.reverse_reverse]
  simp

lemma ssSplit_I (p : List Char) (c : Char) (m : Nat)
    (hm : symbolMultiplier c = some m) :
    ssSplitSuffix (p ++ [c, 'I']) = some (p, m) := by
  have hrev : (p ++ [c, 'I']).reverse = 'I' :: c :: p.reverse := by simp
  unfold ssSplitSuffix
  rw [hrev]
  simp only [if_neg (by decide : ¬(Char.isDigit 'I' ∨ 'I' = '.')),
    if_neg (by decide : ¬('I' = 'b' ∨ 'I' = 'B')),
    hm, List.reverse_reverse]
  simp

lemma ssSplit_ib (p : List Char) (c : Char) (m : Nat) (b : Char)
    (hb : b = 'b' ∨ b = 'B') (hm : symbolMultiplier c = some m) :
    ssSplitSuffix (p ++ [c, 'i', b]) = some (p, m) := by
  have hrev : (p ++ [c, 'i', b]).reverse = b :: 'i' :: c :: p.reverse := by simp
  unfold ssSplitSuffix
  rw [hrev]
  have hbd : ¬(b.isDigit ∨ b = '.') := by rcases hb with h | h <;> subst h <;> decide
  simp only [if_neg hbd, if_pos hb, hm, List.reverse_reverse]
  simp

lemma ssSetGo_run (old : Int) (cs numPart : List Char) (m : Nat) (num : Int) (tw : Nat)
    (hne : cs ≠ []) (hoff : cs.map Char.toLower ≠ ['o', 'f', 'f'])
    (hsplit : ssSplitSuffix cs = some (numPart, m))
    (hp : parseFloatGo numPart = some (num, tw)) (hnum : ¬num < 0) :
    ssSetGo old cs = (goInt64 (num * m) tw, false) := by
  unfold ssSetGo
  simp only [if_neg hne, if_neg hoff, hsplit, hp, if_neg hnum]

lemma ssSet_of_go (cs : List Char) (v : Int) (h : ssSetGo 0 cs = (v, false)) :
    ssSet cs = some v := by
  unfold ssSet
  rw [h]

lemma ssSet_run (cs numPart : List Char) (m : Nat) (num : Int) (tw : Nat)
    (hoff : cs.map Char.toLower ≠ ['o', 'f', 'f'])
    (hsplit : ssSplitSuffix cs = some (numPart, m))
    (hp : parseFloatGo numPart = some (num, tw)) (hnum : 0 ≤ num) :
    ssSet cs = some (goInt64 (num * m) tw) := by
  have hne : cs ≠ [] := by
    intro h
    subst h
    exact Option.noConfusion hsplit
  exact ssSet_of_go _ _
    (ssSetGo_run 0 cs numPart m num tw hne hoff hsplit hp (not_lt.mpr hnum))

/-- Claim C5 (amended): for every numeric prefix p accepted by ParseFloat
with a non-negative value and every letter with a symbol multiplier (k, m,
g, t, p, e in either case), the single-letter form, the two i-forms with
lowercase or capital i, and the two three-letter forms with lowercase i
before b or B all parse successfully to the same stored value, the int64
conversion of the float64 product. -/
theorem C5_i_forms (p : List Char) (num : Int) (tw : Nat) (c : Char) (m : Nat)
    (hp : parseFloatGo p = some (num, tw)) (hnum : 0 ≤ num)
    (hm : symbolMultiplier c = some m) :
    ssSet (p ++ [c]) = some (goInt64 (num * m) tw) ∧
    ssSet (p ++ [c, 'i']) = some (goInt64 (num * m) tw) ∧
    ssSet (p ++ [c, 'I']) = some (goInt64 (num * m) tw) ∧
    ssSet (p ++ [c, 'i', 'B']) = some (goInt64 (num * m) tw) ∧
    ssSet (p ++ [c, 'i', 'b']) = some (goInt64 (num * m) tw) := by
  have e2 : p ++ [c, 'i'] = (p ++ [c]) ++ ['i'] := by simp
  have e3 : p ++ [c, 'I'] = (p ++ [c]) ++ ['I'] := by simp
  have e4 : p ++ [c, 'i', 'B'] = (p ++ [c, 'i']) ++ ['B'] := by simp
  have e5 : p ++ [c, 'i', 'b'] = (p ++ [c, 'i']) ++ ['b'] := by simp
  refine ⟨?_, ?_, ?_, ?_, ?_⟩
  · exact ssSet_run _ p m num tw (map_ne_off_of_last p c (sm_facts c m hm).2.2.2)
      (ssSplit_letter p c m hm) hp hnum
  · refine ssSet_run _ p m num tw ?_ (ssSplit_i p c m hm) hp hnum
    rw [e2]
    exact map_ne_off_of_last _ 'i' (by decide)
  · refine ssSet_run _ p m num tw ?_ (ssSplit_I p c m hm) hp hnum
    rw [e3]
    exact map_ne_off_of_last _ 'I' (by decide)
  · refine ssSet_run _ p m num tw ?_ (ssSplit_ib p c m 'B' (Or.inr rfl) hm) hp hnum
    rw [e4]
    exact map_ne_off_of_last _ 'B' (by decide)
  · refine ssSet_run _ p m num tw ?_ (ssSplit_ib p c m 'b' (Or.inl rfl) hm) hp hnum
    rw [e5]
    exact map_ne_off_of_last _ 'b' (by decide)

/-- Witness for C5_i_forms at the prefix 1 (whose float64 is the dyadic
2 to the 52 over 2 to the 52) and the letter K: all five forms store
1024. -/
theorem C5_i_forms_witness :
    parseFloatGo ['1'] = some (4503599627370496, 52) ∧
    symbolMultiplier 'K' = some 1024 ∧
    goInt64 (4503599627370496 * 1024) 52 = 1024 ∧
    ssSet ['1', 'K'] = some (goInt64 (4503599627370496 * 1024) 52) ∧
    ssSet ['1', 'K', 'i'] = some (goInt64 (4503599627370496 * 1024) 52) ∧
    ssSet ['1', 'K', 'I'] = some (goInt64 (4503599627370496 * 1024) 52) ∧
    ssSet ['1', 'K', 'i', 'B'] = some (goInt64 (4503599627370496 * 1024) 52) ∧
    ssSet ['1', 'K', 'i', 'b'] = some (goInt64 (4503599627370496 * 1024) 52) := by
  have h := C5_i_forms ['1'] 4503599627370496 52 'K' 1024 (by decide) (by decide) (by decide)
  exact ⟨by decide, by decide, by decide, h.1, h.2.1, h.2.2.1, h.2.2.2.1, h.2.2.2.2⟩

lemma goInt64_eq_floor (num : Int) (m tw : Nat) (hnum : 0 ≤ num)
    (hr : num * m < 2 ^ 63 * 2 ^ tw) :
    goInt64 (num * m) tw = ⌊(num : ℚ) / 2 ^ tw * m⌋ := by
  unfold goInt64
  rw [if_pos hr]
  have h1 : ((num * (m : Int)).toNat) = num.toNat * m := by
    rw [show num = ((num.toNat : Nat) : Int) from (Int.toNat_of_nonneg hnum).symm]
    rw [← Int.natCast_mul, Int.toNat_natCast, Int.toNat_natCast]
  have hrw : ((num.toNat : ℚ)) = (num : ℚ) := by
    rw [← Int.cast_natCast, Int.toNat_of_nonneg hnum]
  rw [h1, show ((2 : Nat) ^ tw = (2 ^ tw : Nat)) from rfl]
  rw [show ((num.toNat * m / 2 ^ tw : Nat) : Int) = ⌊(num.toNat : ℚ) / (2 ^ tw : Nat) * m⌋
    from natDiv_cast_eq_floor num.toNat m (2 ^ tw), hrw]
  congr 2
  push_cast
  ring

/-- Claim C6 (amended): the stored byte count is the truncation toward
zero of the float64 product float64(numeric) times multiplier, not a
rounding to nearest and not the exact decimal product: on the accepted
inputs in int64 range the stored value is the floor of the dyadic float
value times the power-of-two multiplier, and concretely 0.1E stores
115292150460684704 (the float64 of 0.1 scaled by 2 to the 60), which
differs from the floor 115292150460684697 of the exact decimal product. -/
theorem C6_floor :
    (ssSet ['0', '.', '1', 'E'] = some 115292150460684704 ∧
     parseFloatGo ['0', '.', '1'] = some (7205759403792794, 56) ∧
     ⌊(1 : ℚ) / 10 * 1024 ^ 6⌋ = 115292150460684697 ∧
     (115292150460684704 : Int) ≠ 115292150460684697) ∧
    ∀ (cs numPart : List Char) (m : Nat) (num : Int) (tw : Nat),
      cs.map Char.toLower ≠ ['o', 'f', 'f'] →
      ssSplitSuffix cs = some (numPart, m) →
      parseFloatGo numPart = some (num, tw) →
      0 ≤ num → num * m < 2 ^ 63 * 2 ^ tw →
      ssSet cs = some ⌊(num : ℚ) / 2 ^ tw * m⌋ := by
  constructor
  · refine ⟨by decide, by decide, ?_, by decide⟩
    rw [show (1 : ℚ) / 10 * 1024 ^ 6 = (1152921504606846976 : Nat) / ((10 : Nat) : ℚ) by
      norm_num]
    rw [← Int.natCast_floor_eq_floor (by positivity), Nat.floor_div_eq_div]
    norm_num
  · intro cs numPart m num tw hoff hsplit hp hnum hr
    rw [ssSet_run cs numPart m num tw hoff hsplit hp hnum,
      goInt64_eq_floor num m tw hnum hr]

/-- Witness for the universal part of C6_floor at the input 1.9b: the
float64 of 1.9 is 8556839292003942 over 2 to the 52, the multiplier is
one, and the floor of the product is 1. -/
theorem C6_floor_witness :
    ssSplitSuffix ['1', '.', '9', 'b'] = some (['1', '.', '9'], 1) ∧
    parseFloatGo ['1', '.', '9'] = some (8556839292003942, 52) ∧
    ssSet ['1', '.', '9', 'b'] = some ⌊(8556839292003942 : ℚ) / 2 ^ 52 * 1⌋ := by
  refine ⟨by decide, by decide, ?_⟩
  exact C6_floor.2 ['1', '.', '9', 'b'] ['1', '.', '9'] 1 8556839292003942 52 (by decide)
    (by decide) (by decide) (by decide) (by decide)

lemma ssSetGo_off (old : Int) (cs : List Char) (hne : ¬cs = [])
    (hoff : cs.map Char.toLower = ['o', 'f', 'f']) : ssSetGo old cs = (-1, false) := by
  unfold ssSetGo
  rw [if_neg hne, if_pos hoff]

lemma ssSet_inv (cs : List Char) (v : Int) (h : ssSet cs = some v) :
    (cs.map Char.toLower = ['o', 'f', 'f'] ∧ v = -1) ∨
    (∃ numPart m num tw, cs ≠ [] ∧ ssSplitSuffix cs = some (numPart, m) ∧
      parseFloatGo numPart = some (num, tw) ∧ 0 ≤ num ∧
      v = goInt64 (num * m) tw) := by
  by_cases h1 : cs = []
  · subst h1
    exact Option.noConfusion h
  by_cases h2 : cs.map Char.toLower = ['o', 'f', 'f']
  · have hv : ssSet cs = some (-1) := ssSet_of_go cs (-1) (ssSetGo_off 0 cs h1 h2)
    rw [h] at hv
    exact Or.inl ⟨h2, Option.some_inj.mp hv⟩
  cases hsplit : ssSplitSuffix cs with
  | none =>
    have hgo : ssSet cs = none := by
      unfold ssSet ssSetGo
      rw [if_neg h1, if_neg h2]
      simp [hsplit]
    rw [hgo] at h
    exact Option.noConfusion h
  | some pm =>
    obtain ⟨numPart, m⟩ := pm
    cases hp : parseFloatGo numPart with
    | none =>
      have hgo : ssSet cs = none := by
        unfold ssSet ssSetGo
        rw [if_neg h1, if_neg h2]
        simp [hsplit, hp]
      rw [hgo] at h
      exact Option.noConfusion h
    | some nt =>
      obtain ⟨num, tw⟩ := nt
      by_cases hnum : num < 0
      · have hgo : ssSet cs = none := by
          unfold ssSet ssSetGo
          rw [if_neg h1, if_neg h2]
          simp [hsplit, hp, if_pos hnum]
        rw [hgo] at h
        exact Option.noConfusion h
      · have hv := ssSet_of_go cs _ (ssSetGo_run 0 cs numPart m num tw h1 h2 hsplit hp hnum)
        rw [h] at hv
        right
        refine ⟨numPart, m, num, tw, h1, ?_, ?_, ?_, ?_⟩
        · rfl
        · exact hp
        · exact not_lt.mp hnum
        · exact Option.some_inj.mp hv

/-- Claim C7 (amended): every value reaching a SizeSuffix through Set on a
string, or through UnmarshalJSON on a JSON string, is the sentinel minus
one (reachable only via off), a non-negative count, or minus two to the
63, the amd64 image of a float64 product at or beyond int64 range (or at
infinity); no other negative value arises on these paths.  The remaining
path, UnmarshalJSON on a raw JSON number, stores the number unchecked. -/
theorem C7_nonneg (cs : List Char) (v : Int) (h : ssSet cs = some v) :
    (v = -1 ∨ 0 ≤ v ∨ v = -(2 ^ 63)) ∧
    (v = -1 → cs.map Char.toLower = ['o', 'f', 'f']) ∧
    ssUnmarshalJSON (JsonValue.str cs) = some v := by
  rcases ssSet_inv cs v h with ⟨hoff, hv⟩ | ⟨numPart, m, num, tw, _, _, _, _, hv⟩
  · exact ⟨Or.inl hv, fun _ => hoff, h⟩
  · have hgo : 0 ≤ goInt64 (num * m) tw ∨ goInt64 (num * m) tw = -(2 ^ 63) := by
      unfold goInt64
      split_ifs
      · exact Or.inl (Int.natCast_nonneg _)
      · exact Or.inr rfl
    refine ⟨?_, fun hneg => ?_, h⟩
    · rcases hgo with h0 | h0
      · exact Or.inr (Or.inl (hv ▸ h0))
      · exact Or.inr (Or.inr (hv.trans h0))
    · exfalso
      rcases hgo with h0 | h0
      · rw [← hv, hneg] at h0
        exact absurd h0 (by decide)
      · rw [← hv, hneg] at h0
        exact absurd h0 (by decide)

/-- Witness for C7_nonneg at an input that exercises the third branch:
the literal ten to the 19 with the byte suffix parses without error and
stores minus two to the 63, the amd64 conversion of a float64 value at
ten to the 19, which exceeds int64 range. -/
theorem C7_nonneg_witness :
    ssSet ['1', '0', '0', '0', '0', '0', '0', '0', '0', '0', '0', '0', '0', '0',
      '0', '0', '0', '0', '0', '0', 'b'] = some (-(2 ^ 63)) ∧
    ((-(2 ^ 63) : Int) = -1 ∨ (0 : Int) ≤ -(2 ^ 63) ∨ (-(2 ^ 63) : Int) = -(2 ^ 63)) ∧
    ssUnmarshalJSON (JsonValue.str ['1', '0', '0', '0', '0', '0', '0', '0', '0', '0',
      '0', '0', '0', '0', '0', '0', '0', '0', '0', '0', 'b']) = some (-(2 ^ 63)) := by
  have h := C7_nonneg ['1', '0', '0', '0', '0', '0', '0', '0', '0', '0', '0', '0',
    '0', '0', '0', '0', '0', '0', '0', '0', 'b'] (-(2 ^ 63)) (by decide)
  exact ⟨by decide, h.1, h.2.2⟩

lemma v0SetGo_off (old : Int) (cs : List Char) (hne : ¬cs = [])
    (hoff : cs.map Char.toLower = ['o', 'f', 'f']) : v0SetGo old cs = (-1, false) := by
  unfold v0SetGo
  rw [if_neg hne, if_pos hoff]

lemma v0SetGo_run (old : Int) (cs numPart : List Char) (m : Nat) (num : Int) (tw : Nat)
    (hne : ¬cs = []) (hoff : ¬cs.map Char.toLower = ['o', 'f', 'f'])
    (hsplit : v0SplitSuffix cs = some (numPart, m))
    (hp : parseFloatGo numPart = some (num, tw)) (hnum : ¬num < 0) :
    v0SetGo old cs = (goInt64 (num * m) tw, false) := by
  unfold v0SetGo
  simp only [if_neg hne, if_neg hoff, hsplit, hp, if_neg hnum]

lemma ssSetGo_preserves (old : Int) (cs : List Char) (h : (ssSetGo old cs).2 = true) :
    (ssSetGo old cs).1 = old := by
  by_cases h1 : cs = []
  · subst h1
    rfl
  by_cases h2 : cs.map Char.toLower = ['o', 'f', 'f']
  · rw [ssSetGo_off old cs h1 h2] at h
    exact absurd h (by decide)
  cases hsplit : ssSplitSuffix cs with
  | none =>
    have he : ssSetGo old cs = (old, true) := by
      unfold ssSetGo
      rw [if_neg h1, if_neg h2]
      simp [hsplit]
    rw [he]
  | some pm =>
    obtain ⟨numPart, m⟩ := pm
    cases hp : parseFloatGo numPart with
    | none =>
      have he : ssSetGo old cs = (old, true) := by
        unfold ssSetGo
        rw [if_neg h1, if_neg h2]
        simp [hsplit, hp]
      rw [he]
    | some nt =>
      obtain ⟨num, tw⟩ := nt
      by_cases hnum : num < 0
      · have he : ssSetGo old cs = (old, true) := by
          unfold ssSetGo
          rw [if_neg h1, if_neg h2]
          simp [hsplit, hp, if_pos hnum]
        rw [he]
      · rw [ssSetGo_run old cs numPart m num tw h1 h2 hsplit hp hnum] at h
        simp at h

lemma v0SetGo_preserves (old : Int) (cs : List Char) (h : (v0SetGo old cs).2 = true) :
    (v0SetGo old cs).1 = old := by
  by_cases h1 : cs = []
  · subst h1
    rfl
  by_cases h2 : cs.map Char.toLower = ['o', 'f', 'f']
  · rw [v0SetGo_off old cs h1 h2] at h
    exact absurd h (by decide)
  cases hsplit : v0SplitSuffix cs with
  | none =>
    have he : v0SetGo old cs = (old, true) := by
      unfold v0SetGo
      rw [if_neg h1, if_neg h2]
      simp [hsplit]
    rw [he]
  | some pm =>
    obtain ⟨numPart, m⟩ := pm
    cases hp : parseFloatGo numPart with
    | none =>
      have he : v0SetGo old cs = (old, true) := by
        unfold v0SetGo
        rw [if_neg h1, if_neg h2]
        simp [hsplit, hp]
      rw [he]
    | some nt =>
      obtain ⟨num, tw⟩ := nt
      by_cases hnum : num < 0
      · have he : v0SetGo old cs = (old, true) := by
          unfold v0SetGo
          rw [if_neg h1, if_neg h2]
          simp [hsplit, hp, if_pos hnum]
        rw [he]
      · rw [v0SetGo_run old cs numPart m num tw h1 h2 hsplit hp hnum] at h
        simp at h

lemma bwSetGo_preserves (old : List BwTimeSlot) (cs : List Char)
    (h : (bwSetGo old cs).2 = true) : (bwSetGo old cs).1 = old := by
  unfold bwSetGo at h ⊢
  revert h
  cases bwParse cs with
  | none => intro h; rfl
  | some l => intro h; simp at h

/-- Claim C8: whenever Set returns an error (empty input, bad suffix,
malformed or out-of-range number, negative magnitude, or a malformed
schedule token), the target value is left unchanged at its previous value;
stated for both SizeSuffix.Set implementations and for the spec-modelled
schedule Set. -/
theorem C8_error_preserves :
    (∀ (old : Int) (cs : List Char),
      (ssSetGo old cs).2 = true → (ssSetGo old cs).1 = old) ∧
    (∀ (old : Int) (cs : List Char),
      (v0SetGo old cs).2 = true → (v0SetGo old cs).1 = old) ∧
    (∀ (old : List BwTimeSlot) (cs : List Char),
      (bwSetGo old cs).2 = true → (bwSetGo old cs).1 = old) :=
  ⟨ssSetGo_preserves, v0SetGo_preserves, bwSetGo_preserves⟩

/-- Witness for C8_error_preserves on three real error inputs with
nonzero previous values. -/
theorem C8_error_preserves_witness :
    (ssSetGo 7 ['1', 'q']).2 = true ∧ (ssSetGo 7 ['1', 'q']).1 = 7 ∧
    (v0SetGo 7 ['-', '1', 'K']).2 = true ∧ (v0SetGo 7 ['-', '1', 'K']).1 = 7 ∧
    (bwSetGo [⟨0, 0, 5, 5⟩] ['b', 'a', 'd']).2 = true ∧
    (bwSetGo [⟨0, 0, 5, 5⟩] ['b', 'a', 'd']).1 = [⟨0, 0, 5, 5⟩] := by
  refine ⟨by decide, C8_error_preserves.1 7 ['1', 'q'] (by decide), by decide,
    C8_error_preserves.2.1 7 ['-', '1', 'K'] (by decide), by decide,
    C8_error_preserves.2.2 [⟨0, 0, 5, 5⟩] ['b', 'a', 'd'] (by decide)⟩

lemma split_equiv (cs : List Char) (hi : 'i' ∉ cs) (hI : 'I' ∉ cs) :
    ssSplitSuffix cs = v0SplitSuffix cs := by
  unfold ssSplitSuffix v0SplitSuffix
  cases hrev : cs.reverse with
  | nil => rfl
  | cons c rest =>
    dsimp only
    have hmem : ∀ a : Char, a ∈ c :: rest → a ∈ cs := by
      intro a ha
      rw [← List.mem_reverse, hrev]
      exact ha
    have hci : c ≠ 'i' := fun h => hi (h ▸ hmem c (List.mem_cons_self c rest))
    have hcI : c ≠ 'I' := fun h => hI (h ▸ hmem c (List.mem_cons_self c rest))
    by_cases h1 : c.isDigit ∨ c = '.'
    · rw [if_pos h1, if_pos h1]
    rw [if_neg h1, if_neg h1]
    by_cases h2 : c = 'b' ∨ c = 'B'
    · rw [if_pos h2, if_pos h2]
      cases rest with
      | nil => rfl
      | cons ci rest2 =>
        have hcii : ci ≠ 'i' := fun h => hi (h ▸ hmem ci (by simp))
        cases rest2 with
        | nil => rfl
        | cons c3 rest3 =>
          dsimp only
          rw [if_neg hcii]
    rw [if_neg h2, if_neg h2]
    have h3 : ¬(c = 'i' ∨ c = 'I') := by
      rintro (h | h)
      exacts [hci h, hcI h]
    rw [if_neg h3]

/-- Claim C10: on every input containing neither the character i nor the
character I, the two SizeSuffix.Set implementations of the repository are
the same state transformer: they error on exactly the same inputs and
store exactly the same value. -/
theorem C10_equiv (old : Int) (cs : List Char) (hi : 'i' ∉ cs) (hI : 'I' ∉ cs) :
    ssSetGo old cs = v0SetGo old cs := by
  unfold ssSetGo v0SetGo
  rw [split_equiv cs hi hI]

/-- Witness for C10_equiv at the i-free input 10M. -/
theorem C10_equiv_witness :
    ('i' ∉ (['1', '0', 'M'] : List Char)) ∧ ('I' ∉ (['1', '0', 'M'] : List Char)) ∧
    ssSetGo 0 ['1', '0', 'M'] = v0SetGo 0 ['1', '0', 'M'] ∧
    ssSetGo 0 ['1', '0', 'M'] = (10485760, false) := by
  refine ⟨by decide, by decide, C10_equiv 0 ['1', '0', 'M'] (by decide) (by decide), by decide⟩

lemma parseFloat_repr : ∀ k : Nat, 1 ≤ k → k < 1024 →
    parseFloatGo (Nat.repr k).data =
      some ((k : Int) * 2 ^ (52 - flog2N k), 52 - flog2N k) := by
  decide

lemma goInt64_scaled (k t mn : Nat) (h : (k : Int) * mn < 2 ^ 63) :
    goInt64 ((k : Int) * 2 ^ t * mn) t = (k : Int) * mn := by
  unfold goInt64
  have hc : (k : Int) * 2 ^ t * mn < 2 ^ 63 * 2 ^ t := by
    have h2 := mul_lt_mul_of_pos_right h (by positivity : (0 : Int) < 2 ^ t)
    calc (k : Int) * 2 ^ t * mn = (k : Int) * mn * 2 ^ t := by ring
      _ < 2 ^ 63 * 2 ^ t := h2
  rw [if_pos hc]
  have h1 : ((k : Int) * 2 ^ t * (mn : Int)).toNat = k * 2 ^ t * mn := by
    rw [show (k : Int) * 2 ^ t * (mn : Int) = ((k * 2 ^ t * mn : Nat) : Int) by
      push_cast; ring, Int.toNat_natCast]
  rw [h1]
  have h2 : k * 2 ^ t * mn / 2 ^ t = k * mn := by
    rw [show k * 2 ^ t * mn = k * mn * 2 ^ t by ring,
      Nat.mul_div_cancel _ (by positivity : 0 < 2 ^ t)]
  rw [h2]
  push_cast
  ring

lemma fmtGo_mul (k d : Nat) (hd : 0 < d) : fmtGo (k * d) d = (Nat.repr k).data := by
  unfold fmtGo
  rw [if_pos (Nat.mul_mod_left k d), Nat.mul_div_cancel k hd]

lemma ssString_pow_band (k : Nat) (hk1 : 1 ≤ k) (hk2 : k < 1024) :
    ssString ((k : Int) * 1024 ^ 1) = (Nat.repr k).data ++ ['K', 'i'] ∧
    ssString ((k : Int) * 1024 ^ 2) = (Nat.repr k).data ++ ['M', 'i'] ∧
    ssString ((k : Int) * 1024 ^ 3) = (Nat.repr k).data ++ ['G', 'i'] ∧
    ssString ((k : Int) * 1024 ^ 4) = (Nat.repr k).data ++ ['T', 'i'] ∧
    ssString ((k : Int) * 1024 ^ 5) = (Nat.repr k).data ++ ['P', 'i'] ∧
    ssString ((k : Int) * 1024 ^ 6) = (Nat.repr k).data ++ ['E', 'i'] := by
  refine ⟨?_, ?_, ?_, ?_, ?_, ?_⟩
  · have hv : ((k : Int) * 1024 ^ 1) = ((k * 1024 : Nat) : Int) := by push_cast; ring
    unfold ssString ssStringPair
    rw [hv]
    rw [if_neg (by rw [not_lt]; positivity : ¬(((k * 1024 : Nat) : Int) < 0)),
      if_neg (by push_cast; omega : ¬(((k * 1024 : Nat) : Int) = 0)),
      if_neg (by push_cast; omega : ¬(((k * 1024 : Nat) : Int) < 1024)),
      if_pos (by push_cast; omega : ((k * 1024 : Nat) : Int) < 1024 ^ 2)]
    rw [Int.toNat_natCast, fmtGo_mul k 1024 (by norm_num)]
  · have hv : ((k : Int) * 1024 ^ 2) = ((k * 1024 ^ 2 : Nat) : Int) := by push_cast; ring
    unfold ssString ssStringPair
    rw [hv]
    rw [if_neg (by rw [not_lt]; positivity : ¬(((k * 1024 ^ 2 : Nat) : Int) < 0)),
      if_neg (by push_cast; omega : ¬(((k * 1024 ^ 2 : Nat) : Int) = 0)),
      if_neg (by push_cast; omega : ¬(((k * 1024 ^ 2 : Nat) : Int) < 1024)),
      if_neg (by push_cast; norm_num; try omega : ¬(((k * 1024 ^ 2 : Nat) : Int) < 1024 ^ 2)),
      if_pos (by push_cast; omega : ((k * 1024 ^ 2 : Nat) : Int) < 1024 ^ 3)]
    rw [Int.toNat_natCast, fmtGo_mul k (1024 ^ 2) (by norm_num)]
  · have hv : ((k : Int) * 1024 ^ 3) = ((k * 1024 ^ 3 : Nat) : Int) := by push_cast; ring
    unfold ssString ssStringPair
    rw [hv]
    rw [if_neg (by rw [not_lt]; positivity : ¬(((k * 1024 ^ 3 : Nat) : Int) < 0)),
      if_neg (by push_cast; omega : ¬(((k * 1024 ^ 3 : Nat) : Int) = 0)),
      if_neg (by push_cast; omega : ¬(((k * 1024 ^ 3 : Nat) : Int) < 1024)),
      if_neg (by push_cast; norm_num; try omega : ¬(((k * 1024 ^ 3 : Nat) : Int) < 1024 ^ 2)),
      if_neg (by push_cast; norm_num; try omega : ¬(((k * 1024 ^ 3 : Nat) : Int) < 1024 ^ 3)),
      if_pos (by push_cast; omega : ((k * 1024 ^ 3 : Nat) : Int) < 1024 ^ 4)]
    rw [Int.toNat_natCast, fmtGo_mul k (1024 ^ 3) (by norm_num)]
  · have hv : ((k : Int) * 1024 ^ 4) = ((k * 1024 ^ 4 : Nat) : Int) := by push_cast; ring
    unfold ssString ssStringPair
    rw [hv]
    rw [if_neg (by rw [not_lt]; positivity : ¬(((k * 1024 ^ 4 : Nat) : Int) < 0)),
      if_neg (by push_cast; omega : ¬(((k * 1024 ^ 4 : Nat) : Int) = 0)),
      if_neg (by push_cast; omega : ¬(((k * 1024 ^ 4 : Nat) : Int) < 1024)),
      if_neg (by push_cast; norm_num; try omega : ¬(((k * 1024 ^ 4 : Nat) : Int) < 1024 ^ 2)),
      if_neg (by push_cast; norm_num; try omega : ¬(((k * 1024 ^ 4 : Nat) : Int) < 1024 ^ 3)),
      if_neg (by push_cast; norm_num; try omega : ¬(((k * 1024 ^ 4 : Nat) : Int) < 1024 ^ 4)),
      if_pos (by push_cast; omega : ((k * 1024 ^ 4 : Nat) : Int) < 1024 ^ 5)]
    rw [Int.toNat_natCast, fmtGo_mul k (1024 ^ 4) (by norm_num)]
  · have hv : ((k : Int) * 1024 ^ 5) = ((k * 1024 ^ 5 : Nat) : Int) := by push_cast; ring
    unfold ssString ssStringPair
    rw [hv]
    rw [if_neg (by rw [not_lt]; positivity : ¬(((k * 1024 ^ 5 : Nat) : Int) < 0)),
      if_neg (by push_cast; omega : ¬(((k * 1024 ^ 5 : Nat) : Int) = 0)),
      if_neg (by push_cast; omega : ¬(((k * 1024 ^ 5 : Nat) : Int) < 1024)),
      if_neg (by push_cast; norm_num; try omega : ¬(((k * 1024 ^ 5 : Nat) : Int) < 1024 ^ 2)),
      if_neg (by push_cast; norm_num; try omega : ¬(((k * 1024 ^ 5 : Nat) : Int) < 1024 ^ 3)),
      if_neg (by push_cast; norm_num; try omega : ¬(((k * 1024 ^ 5 : Nat) : Int) < 1024 ^ 4)),
      if_neg (by push_cast; norm_num; try omega : ¬(((k * 1024 ^ 5 : Nat) : Int) < 1024 ^ 5)),
      if_pos (by push_cast; omega : ((k * 1024 ^ 5 : Nat) : Int) < 1024 ^ 6)]
    rw [Int.toNat_natCast, fmtGo_mul k (1024 ^ 5) (by norm_num)]
  · have hv : ((k : Int) * 1024 ^ 6) = ((k * 1024 ^ 6 : Nat) : Int) := by push_cast; ring
    unfold ssString ssStringPair
    rw [hv]
    rw [if_neg (by rw [not_lt]; positivity : ¬(((k * 1024 ^ 6 : Nat) : Int) < 0)),
      if_neg (by push_cast; omega : ¬(((k * 1024 ^ 6 : Nat) : Int) = 0)),
      if_neg (by push_cast; omega : ¬(((k * 1024 ^ 6 : Nat) : Int) < 1024)),
      if_neg (by push_cast; norm_num; try omega : ¬(((k * 1024 ^ 6 : Nat) : Int) < 1024 ^ 2)),
      if_neg (by push_cast; norm_num; try omega : ¬(((k * 1024 ^ 6 : Nat) : Int) < 1024 ^ 3)),
      if_neg (by push_cast; norm_num; try omega : ¬(((k * 1024 ^ 6 : Nat) : Int) < 1024 ^ 4)),
      if_neg (by push_cast; norm_num; try omega : ¬(((k * 1024 ^ 6 : Nat) : Int) < 1024 ^ 5)),
      if_neg (by push_cast; norm_num; try omega : ¬(((k * 1024 ^ 6 : Nat) : Int) < 1024 ^ 6))]
    rw [Int.toNat_natCast, fmtGo_mul k (1024 ^ 6) (by norm_num)]

/-- Claim C1 (amended): parse of format is the identity for zero and for
every value k times 1024 to the n with k from 1 to 1023 and n from 1 to 6
inside the int64 range; the bare values 1 to 1023 (the n equal to zero
case) are excluded because formatting emits bare digits, which re-parse at
the kilobyte default (see C1_counterexample). -/
theorem C1_roundtrip :
    ssSet (ssString 0) = some 0 ∧
    ∀ k n : Nat, 1 ≤ k → k < 1024 → 1 ≤ n → n ≤ 6 →
      (k : Int) * 1024 ^ n < 2 ^ 63 →
      ssSet (ssString ((k : Int) * 1024 ^ n)) = some ((k : Int) * 1024 ^ n) := by
  refine ⟨by decide, ?_⟩
  intro k n hk1 hk2 hn1 hn6 hbound
  have hband := ssString_pow_band k hk1 hk2
  have hparse := parseFloat_repr k hk1 hk2
  have main : ∀ L : Char, symbolMultiplier L = some (1024 ^ n) →
      ssString ((k : Int) * 1024 ^ n) = (Nat.repr k).data ++ [L, 'i'] →
      ssSet (ssString ((k : Int) * 1024 ^ n)) = some ((k : Int) * 1024 ^ n) := by
    intro L hL hfmt
    rw [hfmt]
    have hoff : ((Nat.repr k).data ++ [L, 'i']).map Char.toLower ≠ ['o', 'f', 'f'] := by
      have e : (Nat.repr k).data ++ [L, 'i'] = ((Nat.repr k).data ++ [L]) ++ ['i'] := by simp
      rw [e]
      exact map_ne_off_of_last _ 'i' (by decide)
    have hrun := ssSet_run ((Nat.repr k).data ++ [L, 'i']) (Nat.repr k).data (1024 ^ n)
      ((k : Int) * 2 ^ (52 - flog2N k)) (52 - flog2N k) hoff
      (ssSplit_i (Nat.repr k).data L (1024 ^ n) hL) hparse (by positivity)
    rw [hrun]
    have hb : (k : Int) * (1024 ^ n : Nat) < 2 ^ 63 := by
      push_cast
      exact hbound
    rw [goInt64_scaled k (52 - flog2N k) (1024 ^ n) hb]
    congr 1
    push_cast
    ring
  interval_cases n
  · exact main 'K' (by decide) hband.1
  · exact main 'M' (by decide) hband.2.1
  · exact main 'G' (by decide) hband.2.2.1
  · exact main 'T' (by decide) hband.2.2.2.1
  · exact main 'P' (by decide) hband.2.2.2.2.1
  · exact main 'E' (by decide) hband.2.2.2.2.2

/-- Witness for C1_roundtrip at k equal to 5 and n equal to 2. -/
theorem C1_roundtrip_witness :
    ssString ((5 : Int) * 1024 ^ 2) = ['5', 'M', 'i'] ∧
    ssSet ['5', 'M', 'i'] = some 5242880 ∧
    ssSet (ssString ((5 : Int) * 1024 ^ 2)) = some ((5 : Int) * 1024 ^ 2) := by
  refine ⟨by decide, by decide, ?_⟩
  exact C1_roundtrip.2 5 2 (by decide) (by decide) (by decide) (by decide) (by decide)

/-- Claim C1 counterexample: 102 is representable as k times 1024 to the n with
k equal to 102 and n equal to 0, String formats it as the bare digits 102, and
Set re-parses bare digits at the kilobyte default, yielding 104448, not 102. -/
theorem C1_counterexample :
    ssSet (ssString 102) = some 104448 ∧ (104448 : Int) ≠ 102 := by
  constructor
  · decide
  · decide

/-- Claim C2 counterexample: in the tested five-slot table the Sun-23:00 slot
has weekly position 1380, which does not exceed the Monday 10:59 query
position 2099, so the query does not precede every slot position; moreover the
slot of largest weekly position overall is Sat-10:00, and LimitAt does not
return it. -/
theorem C2_counterexample :
    slotPos ⟨0, 2300, 666 * 1024, 66 * 1024⟩ ≤ weekPos 1 10 59 ∧
    pickLargest
      [⟨1, 1100, 333 * 1024, 33 * 1024⟩, ⟨2, 1340, 666 * 1024, 66 * 1024⟩,
       ⟨5, 0, 10 * 1024 * 1024, 1024 * 1024⟩, ⟨6, 1000, -1, 100 * 1024⟩,
       ⟨0, 2300, 666 * 1024, 66 * 1024⟩] = some ⟨6, 1000, -1, 100 * 1024⟩ ∧
    LimitAt
      [⟨1, 1100, 333 * 1024, 33 * 1024⟩, ⟨2, 1340, 666 * 1024, 66 * 1024⟩,
       ⟨5, 0, 10 * 1024 * 1024, 1024 * 1024⟩, ⟨6, 1000, -1, 100 * 1024⟩,
       ⟨0, 2300, 666 * 1024, 66 * 1024⟩] 1 10 59 ≠ ⟨6, 1000, -1, 100 * 1024⟩ := by
  refine ⟨by decide, by decide, by decide⟩

/-- Claim C2 (amended): on the tested table LimitAt at Monday 10:59 returns the
Sun-23:00 slot through the ordinary largest-position-not-exceeding-now rule:
it is the only slot whose weekly position is at most the query position 2099;
no wraparound is involved. -/
theorem C2_limitAt :
    LimitAt
      [⟨1, 1100, 333 * 1024, 33 * 1024⟩, ⟨2, 1340, 666 * 1024, 66 * 1024⟩,
       ⟨5, 0, 10 * 1024 * 1024, 1024 * 1024⟩, ⟨6, 1000, -1, 100 * 1024⟩,
       ⟨0, 2300, 666 * 1024, 66 * 1024⟩] 1 10 59 = ⟨0, 2300, 666 * 1024, 66 * 1024⟩ ∧
    List.filter (fun s => slotPos s ≤ weekPos 1 10 59)
      [⟨1, 1100, 333 * 1024, 33 * 1024⟩, ⟨2, 1340, 666 * 1024, 66 * 1024⟩,
       ⟨5, 0, 10 * 1024 * 1024, 1024 * 1024⟩, ⟨6, 1000, -1, 100 * 1024⟩,
       ⟨0, 2300, 666 * 1024, 66 * 1024⟩] = [⟨0, 2300, 666 * 1024, 66 * 1024⟩] := by
  refine ⟨by decide, by decide⟩

/-- Claim C3: parsing the single day-unanchored token 10:20,666 yields exactly
seven slots, one per day in Sunday(0) to Saturday(6) order, each at time 1020
with Tx and Rx both 666 times 1024. -/
theorem C3_unanchored_expansion :
    bwParse ['1', '0', ':', '2', '0', ',', '6', '6', '6'] =
      some [⟨0, 1020, 666 * 1024, 666 * 1024⟩, ⟨1, 1020, 666 * 1024, 666 * 1024⟩,
            ⟨2, 1020, 666 * 1024, 666 * 1024⟩, ⟨3, 1020, 666 * 1024, 666 * 1024⟩,
            ⟨4, 1020, 666 * 1024, 666 * 1024⟩, ⟨5, 1020, 666 * 1024, 666 * 1024⟩,
            ⟨6, 1020, 666 * 1024, 666 * 1024⟩] := by decide

/-- Claim C4: the String of the older implementation (unnamed/part_000)
satisfies all four examples, 1023, 1K, 1M and 10.100G; the current
fs/sizesuffix.go String instead returns 1Ki at 1024 (and 10.100Gi for the
fractional case), contradicting the claim and the TestSizeSuffixString
expectations shipped in the repository.  The value 10844792422 is the int64
truncation of 10.1 times 1024 cubed. -/
theorem C4_string_examples :
    v0String 1023 = ['1', '0', '2', '3'] ∧
    v0String 1024 = ['1', 'K'] ∧
    v0String (1024 * 1024) = ['1', 'M'] ∧
    v0String 10844792422 = ['1', '0', '.', '1', '0', '0', 'G'] ∧
    ssString 1024 = ['1', 'K', 'i'] ∧
    ssString 1024 ≠ ['1', 'K'] ∧
    ssString 10844792422 = ['1', '0', '.', '1', '0', '0', 'G', 'i'] := by
  refine ⟨by decide, by decide, by decide, by decide, by decide, by decide, by decide⟩

/-- Claim C5 counterexample: for the letter b the i-form is rejected (1bi is
an error although 1b parses to 1), and a capital I before B is rejected (1KIB
is an error although 1K parses to 1024), so the claim fails as stated for
L equal to b and for the capital-I three-letter form. -/
theorem C5_counterexample :
    ssSet ['1', 'b'] = some 1 ∧ ssSet ['1', 'b', 'i'] = none ∧
    ssSet ['1', 'K'] = some 1024 ∧ ssSet ['1', 'K', 'I', 'B'] = none := by
  refine ⟨by decide, by decide, by decide, by decide⟩

/-- Claim C7 counterexample: UnmarshalJSON on the JSON number minus five stores
minus five, a negative value other than the minus-one sentinel. -/
theorem C7_counterexample :
    ssUnmarshalJSON (JsonValue.num (-5)) = some (-5) ∧
    ¬((-5 : Int) = -1 ∨ 0 ≤ (-5 : Int)) := by
  refine ⟨by decide, by decide⟩

/-- Claim C9 counterexample: SizeSuffix has no JSON marshaller in the
repository, so marshalling 1024 emits the raw JSON number 1024 and not the
canonical string of either String implementation. -/
theorem C9_counterexample :
    ssMarshalJSON 1024 = JsonValue.num 1024 ∧
    ssMarshalJSON 1024 ≠ JsonValue.str (ssString 1024) ∧
    ssMarshalJSON 1024 ≠ JsonValue.str (v0String 1024) := by
  refine ⟨by decide, by decide, by decide⟩

/-- Claim C9 (amended): JSON marshalling of a SizeSuffix always emits the raw
JSON number, which UnmarshalJSON accepts back unchanged through its
json-number path. -/
theorem C9_marshal_number :
    ∀ v : Int, ssMarshalJSON v = JsonValue.num v ∧
      ssUnmarshalJSON (ssMarshalJSON v) = some v := by
  intro v
  exact ⟨rfl, rfl⟩

/-- Claim C6 counterexample: for the input 1.9b the numeric literal is 1.9 and
the multiplier is 1; rounding to nearest would give 2, but Set stores the
truncation 1. -/
theorem C6_counterexample :
    ssSplitSuffix ['1', '.', '9', 'b'] = some (['1', '.', '9'], 1) ∧
    parseDec ['1', '.', '9'] = some (19, 1) ∧
    ssSet ['1', '.', '9', 'b'] = some 1 ∧
    round ((19 : ℚ) / 10 ^ 1 * 1) = 2 ∧ (1 : Int) ≠ 2 := by
  refine ⟨by decide, by decide, by decide, ?_, by decide⟩
  rw [round_eq]
  norm_num
